import Mathlib

/-!
Verification of the modx detection pipeline.

The backend's feature-detection step follows the notebook function
`get_activated_features` quoted in the repository's verification document:
sort feature magnitudes descending, keep the first `topk`, then keep only
entries whose magnitude is strictly greater than the activation threshold.
Feature tensors are modelled as lists of rationals (one magnitude per
feature index); `torch.sort` is modelled as a stable descending sort, so
equal magnitudes keep their input order, i.e. ascending feature index.
-/

namespace Modx

/-- A candidate feature at one token position: `(feature_index, magnitude)`. -/
abbrev Candidate := ℕ × ℚ

/-- The order in which sorted candidates come out of the descending sort:
higher magnitude first, and for equal magnitudes the lower feature index
first (the order a stable descending sort produces on an index-ascending
input). -/
def featOrder (a b : Candidate) : Prop :=
  b.2 < a.2 ∨ (a.2 = b.2 ∧ a.1 ≤ b.1)

instance : DecidableRel featOrder := fun a b => by
  unfold featOrder; infer_instance

instance : IsTotal Candidate featOrder where
  total a b := by
    rcases lt_trichotomy a.2 b.2 with h | h | h
    · exact Or.inr (Or.inl h)
    · rcases Nat.le_total a.1 b.1 with hn | hn
      · exact Or.inl (Or.inr ⟨h, hn⟩)
      · exact Or.inr (Or.inr ⟨h.symm, hn⟩)
    · exact Or.inl (Or.inl h)

instance : IsTrans Candidate featOrder where
  trans a b c hab hbc := by
    rcases hab with hab | ⟨hab, hab'⟩
    · rcases hbc with hbc | ⟨hbc, _⟩
      · exact Or.inl (hbc.trans hab)
      · exact Or.inl (hbc ▸ hab)
    · rcases hbc with hbc | ⟨hbc, hbc'⟩
      · exact Or.inl (hab ▸ hbc)
      · exact Or.inr ⟨hab.trans hbc, hab'.trans hbc'⟩

/-- `get_activated_features` from the notebook pattern the backend's
feature detector implements: index the magnitudes, sort descending
(stable), take the first `topk`, keep entries with magnitude strictly
above the threshold.  The notebook hardcodes the threshold `1e-3`; the
service reads it from the `ACTIVATION_THRESHOLD` configuration, so it is
a parameter here. -/
def get_activated_features (feature_list : List ℚ) (topk : ℕ) (threshold : ℚ) :
    List Candidate :=
  (((feature_list.enum).insertionSort featOrder).take topk).filter
    (fun p => decide (threshold < p.2))

/-- The Feature Detector contract `detect` (§4.3 of the design):
one token position's feature tensor in, ranked candidates out. -/
def detect (feature_tensor : List ℚ) (top_k : ℕ) (activation_threshold : ℚ) :
    List Candidate :=
  get_activated_features feature_tensor top_k activation_threshold

example : detect [5, 1, 2] 10 1 = [(0, 5), (2, 2)] := by decide

/-- C1: `detect` keeps at most `top_k` entries, every returned entry has
magnitude strictly greater than the threshold, and the returned sequence
is in descending magnitude order. -/
theorem detect_topk_threshold_descending (fs : List ℚ) (k : ℕ) (t : ℚ) :
    (detect fs k t).length ≤ k ∧
    (∀ p ∈ detect fs k t, t < p.2) ∧
    (detect fs k t).Pairwise (fun a b : Candidate => b.2 ≤ a.2) := by
  refine ⟨?_, ?_, ?_⟩
  · exact le_trans (List.length_filter_le _ _) (List.length_take_le _ _)
  · intro p hp
    simp only [detect, get_activated_features, List.mem_filter] at hp
    exact of_decide_eq_true hp.2
  · have hs : ((fs.enum).insertionSort featOrder).Pairwise featOrder :=
      List.sorted_insertionSort featOrder _
    have htake : (((fs.enum).insertionSort featOrder).take k).Pairwise featOrder :=
      hs.sublist (List.take_sublist _ _)
    have hfilter : (detect fs k t).Pairwise featOrder :=
      htake.sublist (List.filter_sublist _)
    exact hfilter.imp (fun h => by
      rcases h with h | ⟨h, _⟩
      · exact le_of_lt h
      · exact le_of_eq h.symm)

/-- A quarantined-feature match, as the service returns it: index, magnitude,
the registry's description, the probed layer, and (when the caller probes a
full sequence) the token position. -/
structure FeatureActivation where
  feature_index : ℕ
  activation_value : ℚ
  description : String
  layer : ℕ
  token_position : Option ℕ
deriving DecidableEq

/-- Modelled from the spec: the Feature Detector's `match_quarantine`
(`detect_quarantined_activations` in the design document, whose Python source
is not in the repository) — keep the candidates whose feature index exists in
the quarantine registry and attach the registry description, the probed layer
and the token position. -/
def match_quarantine (cands : List Candidate) (registry : List (ℕ × String))
    (layer : ℕ) (pos : Option ℕ) : List FeatureActivation :=
  (cands.filter (fun p => (registry.lookup p.1).isSome)).map
    (fun p =>
      { feature_index := p.1
        activation_value := p.2
        description := (registry.lookup p.1).getD ""
        layer := layer
        token_position := pos })

/-- Modelled from the spec: `has_quarantined_features` is true exactly when
the filtered sequence is non-empty. -/
def has_quarantined_features (cands : List Candidate) (registry : List (ℕ × String))
    (layer : ℕ) (pos : Option ℕ) : Bool :=
  !(match_quarantine cands registry layer pos).isEmpty

/-! Helper lemmas about the structure of `detect`'s output, shared by the
claims below. -/

lemma detect_sublist_sorted (fs : List ℚ) (k : ℕ) (t : ℚ) :
    List.Sublist (detect fs k t) ((fs.enum).insertionSort featOrder) :=
  (List.filter_sublist _).trans (List.take_sublist _ _)

lemma detect_pairwise_featOrder (fs : List ℚ) (k : ℕ) (t : ℚ) :
    (detect fs k t).Pairwise featOrder :=
  List.Pairwise.sublist (detect_sublist_sorted fs k t)
    (List.sorted_insertionSort featOrder (fs.enum))

lemma detect_pairwise_ne_fst (fs : List ℚ) (k : ℕ) (t : ℚ) :
    (detect fs k t).Pairwise (fun a b : Candidate => a.1 ≠ b.1) := by
  have h1 : ((fs.enum).map Prod.fst).Nodup := List.nodup_enum_map_fst fs
  have h2 : (fs.enum).Pairwise (fun a b : Candidate => a.1 ≠ b.1) :=
    List.pairwise_map.mp h1
  have h3 : ((fs.enum).insertionSort featOrder).Pairwise
      (fun a b : Candidate => a.1 ≠ b.1) :=
    ((List.perm_insertionSort featOrder (fs.enum)).pairwise_iff
      (fun h e => h e.symm)).mpr h2
  exact List.Pairwise.sublist (detect_sublist_sorted fs k t) h3

lemma detect_pairwise_tiebreak (fs : List ℚ) (k : ℕ) (t : ℚ) :
    (detect fs k t).Pairwise (fun a b : Candidate => a.2 = b.2 → a.1 < b.1) := by
  have h := (detect_pairwise_featOrder fs k t).and (detect_pairwise_ne_fst fs k t)
  exact h.imp (fun hab hv => by
    rcases hab with ⟨horder | ⟨_, hle⟩, hne⟩
    · exact absurd (hv ▸ horder) (lt_irrefl _)
    · exact lt_of_le_of_ne hle hne)

/-- C2: a feature whose magnitude equals the activation threshold is excluded
from `detect`'s result (the threshold is an exclusive lower bound), while a
feature with magnitude `threshold + ε`, `ε > 0`, that survives the top-k cut
is included. -/
theorem detect_threshold_boundary (fs : List ℚ) (k : ℕ) (t ε : ℚ) (p : Candidate)
    (hε : 0 < ε) (hmem : p ∈ ((fs.enum).insertionSort featOrder).take k) :
    (p.2 = t → p ∉ detect fs k t) ∧ (p.2 = t + ε → p ∈ detect fs k t) := by
  constructor
  · intro heq hp
    simp only [detect, get_activated_features, List.mem_filter] at hp
    have hlt := of_decide_eq_true hp.2
    rw [heq] at hlt
    exact absurd hlt (lt_irrefl t)
  · intro heq
    simp only [detect, get_activated_features, List.mem_filter]
    exact ⟨hmem, decide_eq_true (by rw [heq]; exact lt_add_of_pos_right t hε)⟩

/-- Witness for C2 on the tensor `[5, 1, 2]` with threshold 1: the feature of
magnitude exactly 1 is excluded and the feature of magnitude 1 + 4 is
included. -/
theorem detect_threshold_boundary_witness :
    ((1, (1 : ℚ)) ∉ detect [5, 1, 2] 10 1) ∧ ((0, (5 : ℚ)) ∈ detect [5, 1, 2] 10 1) := by
  constructor
  · exact (detect_threshold_boundary [5, 1, 2] 10 1 4 (1, 1) (by norm_num)
      (by decide)).1 rfl
  · exact (detect_threshold_boundary [5, 1, 2] 10 1 4 (0, 5) (by norm_num)
      (by decide)).2 (by norm_num)

/-- C3: for a fixed feature tensor the `detect` + `match_quarantine` pipeline
is deterministic (equal inputs give the same ordered sequence), and candidates
of equal magnitude are ordered with the lower feature index first. -/
theorem detection_deterministic_tiebreak (fs fs' : List ℚ) (k : ℕ) (t : ℚ)
    (reg : List (ℕ × String)) (layer : ℕ) (pos : Option ℕ) (h : fs = fs') :
    match_quarantine (detect fs k t) reg layer pos =
      match_quarantine (detect fs' k t) reg layer pos ∧
    (match_quarantine (detect fs k t) reg layer pos).Pairwise
      (fun a b => a.activation_value = b.activation_value →
        a.feature_index < b.feature_index) := by
  subst h
  refine ⟨rfl, ?_⟩
  unfold match_quarantine
  refine List.pairwise_map.mpr ?_
  exact (detect_pairwise_tiebreak fs k t).filter _

/-- Witness for C3 on the tensor `[3, 3, 1]` (two candidates tied at
magnitude 3): the pipeline output is reproducible and lists feature 0 before
feature 1. -/
theorem detection_deterministic_tiebreak_witness :
    match_quarantine (detect [3, 3, 1] 10 0) [(0, "a"), (1, "b")] 21 none =
      match_quarantine (detect [3, 3, 1] 10 0) [(0, "a"), (1, "b")] 21 none ∧
    match_quarantine (detect [3, 3, 1] 10 0) [(0, "a"), (1, "b")] 21 none =
      [⟨0, 3, "a", 21, none⟩, ⟨1, 3, "b", 21, none⟩] :=
  ⟨(detection_deterministic_tiebreak [3, 3, 1] [3, 3, 1] 10 0
      [(0, "a"), (1, "b")] 21 none rfl).1, by decide⟩

/-- C4: `match_quarantine` returns exactly the candidates whose feature index
exists in the registry (with the registry description, the layer and the
position attached); an index absent from the registry never appears; and
`has_quarantined_features` is true iff the filtered sequence is non-empty. -/
theorem match_quarantine_filters_by_registry (cands : List Candidate)
    (reg : List (ℕ × String)) (layer : ℕ) (pos : Option ℕ) :
    (∀ fa, fa ∈ match_quarantine cands reg layer pos ↔
      ((fa.feature_index, fa.activation_value) ∈ cands ∧
       reg.lookup fa.feature_index = some fa.description ∧
       fa.layer = layer ∧ fa.token_position = pos)) ∧
    (∀ i, reg.lookup i = none →
      ∀ fa ∈ match_quarantine cands reg layer pos, fa.feature_index ≠ i) ∧
    (has_quarantined_features cands reg layer pos = true ↔
      match_quarantine cands reg layer pos ≠ []) := by
  have hmem : ∀ fa, fa ∈ match_quarantine cands reg layer pos ↔
      ((fa.feature_index, fa.activation_value) ∈ cands ∧
       reg.lookup fa.feature_index = some fa.description ∧
       fa.layer = layer ∧ fa.token_position = pos) := by
    intro fa
    constructor
    · intro hfa
      simp only [match_quarantine, List.mem_map, List.mem_filter] at hfa
      obtain ⟨p, ⟨hpc, hps⟩, rfl⟩ := hfa
      obtain ⟨d, hd⟩ := Option.isSome_iff_exists.mp hps
      exact ⟨by simpa using hpc, by simp [hd], rfl, rfl⟩
    · rintro ⟨hc, hd, hl, hp⟩
      simp only [match_quarantine, List.mem_map, List.mem_filter]
      refine ⟨(fa.feature_index, fa.activation_value), ⟨hc, by simp [hd]⟩, ?_⟩
      cases fa
      simp_all
  refine ⟨hmem, ?_, ?_⟩
  · intro i hi fa hfa he
    have := ((hmem fa).mp hfa).2.1
    rw [he, hi] at this
    exact Option.noConfusion this
  · unfold has_quarantined_features
    rw [Bool.not_eq_true']
    cases hq : (match_quarantine cands reg layer pos).isEmpty
    · simp_all [List.isEmpty_iff]
    · simp_all [List.isEmpty_iff]

/-- Token position of an aggregated activation (aggregated entries always
carry one; `getD 0` reads it out). -/
def posVal (fa : FeatureActivation) : ℕ := fa.token_position.getD 0

/-- Modelled from the spec: the composite order the Orchestrator uses for the
aggregated list — descending activation value, ties broken by ascending token
position, then by ascending feature index. -/
def aggOrder (a b : FeatureActivation) : Prop :=
  b.activation_value < a.activation_value ∨
    (a.activation_value = b.activation_value ∧
      (posVal a < posVal b ∨ (posVal a = posVal b ∧ a.feature_index ≤ b.feature_index)))

instance : DecidableRel aggOrder := fun a b => by unfold aggOrder; infer_instance

instance : IsTotal FeatureActivation aggOrder where
  total a b := by
    rcases lt_trichotomy a.activation_value b.activation_value with h | h | h
    · exact Or.inr (Or.inl h)
    · rcases Nat.lt_trichotomy (posVal a) (posVal b) with h2 | h2 | h2
      · exact Or.inl (Or.inr ⟨h, Or.inl h2⟩)
      · rcases Nat.le_total a.feature_index b.feature_index with h3 | h3
        · exact Or.inl (Or.inr ⟨h, Or.inr ⟨h2, h3⟩⟩)
        · exact Or.inr (Or.inr ⟨h.symm, Or.inr ⟨h2.symm, h3⟩⟩)
      · exact Or.inr (Or.inr ⟨h.symm, Or.inl h2⟩)
    · exact Or.inl (Or.inl h)

instance : IsTrans FeatureActivation aggOrder where
  trans a b c hab hbc := by
    rcases hab with hab | ⟨he, hab⟩
    · rcases hbc with hbc | ⟨he2, _⟩
      · exact Or.inl (hbc.trans hab)
      · exact Or.inl (he2 ▸ hab)
    · rcases hbc with hbc | ⟨he2, hbc⟩
      · exact Or.inl (he ▸ hbc)
      · refine Or.inr ⟨he.trans he2, ?_⟩
        rcases hab with hab | ⟨hp, hab⟩
        · rcases hbc with hbc | ⟨hp2, _⟩
          · exact Or.inl (hab.trans hbc)
          · exact Or.inl (hp2 ▸ hab)
        · rcases hbc with hbc | ⟨hp2, hbc⟩
          · exact Or.inl (hp ▸ hbc)
          · exact Or.inr ⟨hp.trans hp2, hab.trans hbc⟩

/-- Modelled from the spec: on a full-sequence probe the Orchestrator runs
`detect` + `match_quarantine` independently on each token position's feature
tensor, tagging every result with that position. -/
def per_position_results (tensors : List (List ℚ)) (k : ℕ) (t : ℚ)
    (reg : List (ℕ × String)) (layer : ℕ) : List (List FeatureActivation) :=
  (tensors.enum).map (fun pt => match_quarantine (detect pt.2 k t) reg layer (some pt.1))

/-- Modelled from the spec: the Orchestrator aggregates all per-position
results into one list sorted by `aggOrder`. -/
def aggregate_activations (tensors : List (List ℚ)) (k : ℕ) (t : ℚ)
    (reg : List (ℕ × String)) (layer : ℕ) : List FeatureActivation :=
  ((per_position_results tensors k t reg layer).flatten).insertionSort aggOrder

example : aggregate_activations [[0, 2], [5]] 10 0 [(0, "a"), (1, "b")] 21 =
    [⟨0, 5, "a", 21, some 1⟩, ⟨1, 2, "b", 21, some 0⟩] := by decide

/-- C5: the aggregated full-sequence result contains exactly the
independently computed per-position detections, ordered by descending
activation value with ties broken by ascending token position and then by
ascending feature index. -/
theorem orchestrator_aggregation_ordered (tensors : List (List ℚ)) (k : ℕ) (t : ℚ)
    (reg : List (ℕ × String)) (layer : ℕ) :
    (∀ fa, fa ∈ aggregate_activations tensors k t reg layer ↔
      ∃ pt ∈ tensors.enum,
        fa ∈ match_quarantine (detect pt.2 k t) reg layer (some pt.1)) ∧
    (aggregate_activations tensors k t reg layer).Pairwise
      (fun a b => b.activation_value ≤ a.activation_value ∧
        (a.activation_value = b.activation_value →
          (posVal a ≤ posVal b ∧ (posVal a = posVal b →
            a.feature_index ≤ b.feature_index)))) := by
  constructor
  · intro fa
    simp only [aggregate_activations, per_position_results, List.mem_insertionSort,
      List.mem_flatten, List.mem_map]
    constructor
    · rintro ⟨l, ⟨pt, hpt, rfl⟩, hfa⟩
      exact ⟨pt, hpt, hfa⟩
    · rintro ⟨pt, hpt, hfa⟩
      exact ⟨_, ⟨pt, hpt, rfl⟩, hfa⟩
  · have hs : (aggregate_activations tensors k t reg layer).Pairwise aggOrder :=
      List.sorted_insertionSort aggOrder _
    refine hs.imp (fun h => ?_)
    rcases h with h | ⟨he, hrest⟩
    · exact ⟨le_of_lt h, fun he => absurd h (by rw [he]; exact lt_irrefl _)⟩
    · refine ⟨le_of_eq he.symm, fun _ => ?_⟩
      rcases hrest with hp | ⟨hpe, hi⟩
      · exact ⟨le_of_lt hp, fun hpe => absurd hp (by rw [hpe]; exact lt_irrefl _)⟩
      · exact ⟨le_of_eq hpe, fun _ => hi⟩

/-! ### SAE conversion pipeline

The converter's Python source (`sae_converter.py`) is not in the repository;
the pipeline is modelled from the spec and the design document: per layer,
fetch the source artifact, rename `encoder.weight → W_E` (transposed),
`decoder.weight → W_D` (transposed), copy the biases to `b_E`/`b_D`
unchanged, write the result, and copy `hyperparams.json → config.json`;
skip a layer whose target artifact and config already exist (unless
`force`), and let one layer's failure leave the other layers unaffected. -/

/-- A weight matrix as a list of rows. -/
abbrev Mat := List (List ℚ)

/-- Number of columns of a (rectangular) matrix. -/
def numCols (m : Mat) : ℕ := (m.headD []).length

/-- Transpose of a matrix: row `j` of the result is column `j` of the
input (the model of `tensor.t().contiguous()`). -/
def transposeMat (m : Mat) : Mat :=
  (List.range (numCols m)).map (fun j => m.map (fun row => row.getD j 0))

/-- A source-format SAE checkpoint together with its config files. -/
structure SourceSAE where
  encoder_weight : Mat
  decoder_weight : Mat
  encoder_bias : List ℚ
  decoder_bias : List ℚ
  hyperparams : String
  lm_config : String
deriving DecidableEq

/-- A converted SAE artifact in the runtime's parameter schema, together
with its config files (presence of artifact and config is the idempotency
marker). -/
structure TargetSAE where
  W_E : Mat
  W_D : Mat
  b_E : List ℚ
  b_D : List ℚ
  config : String
  lm_config : String
deriving DecidableEq

/-- Modelled from the spec: `convert_single_sae` — the fixed key mapping of
the conversion pipeline. -/
def convert_single_sae (src : SourceSAE) : TargetSAE :=
  { W_E := transposeMat src.encoder_weight
    W_D := transposeMat src.decoder_weight
    b_E := src.encoder_bias
    b_D := src.decoder_bias
    config := src.hyperparams
    lm_config := src.lm_config }

lemma transposeMat_entry (m : Mat) (i j : ℕ) (hi : i < m.length) (hj : j < numCols m) :
    ((transposeMat m).getD j []).getD i 0 = (m.getD i []).getD j 0 := by
  simp [transposeMat, List.getD_eq_getElem?_getD, List.getElem?_range hj,
    List.getElem?_eq_getElem hi]

/-- C7: the conversion's key mapping — the target encoder matrix is the
transposed source encoder weight (entrywise, for every in-range index pair),
same for the decoder, both biases are copied unchanged, and
`hyperparams.json` becomes `config.json` (with `lm_config.json` copied
alongside). -/
theorem conversion_key_mapping (src : SourceSAE) :
    (∀ i j, i < src.encoder_weight.length → j < numCols src.encoder_weight →
      (((convert_single_sae src).W_E.getD j []).getD i 0 =
        (src.encoder_weight.getD i []).getD j 0)) ∧
    (∀ i j, i < src.decoder_weight.length → j < numCols src.decoder_weight →
      (((convert_single_sae src).W_D.getD j []).getD i 0 =
        (src.decoder_weight.getD i []).getD j 0)) ∧
    (convert_single_sae src).W_E.length = numCols src.encoder_weight ∧
    (convert_single_sae src).W_D.length = numCols src.decoder_weight ∧
    (convert_single_sae src).b_E = src.encoder_bias ∧
    (convert_single_sae src).b_D = src.decoder_bias ∧
    (convert_single_sae src).config = src.hyperparams ∧
    (convert_single_sae src).lm_config = src.lm_config := by
  refine ⟨?_, ?_, ?_, ?_, rfl, rfl, rfl, rfl⟩
  · intro i j hi hj
    exact transposeMat_entry _ i j hi hj
  · intro i j hi hj
    exact transposeMat_entry _ i j hi hj
  · simp [convert_single_sae, transposeMat]
  · simp [convert_single_sae, transposeMat]

/-- Per-layer outcome of the conversion pipeline. -/
inductive Outcome where
  | Skipped
  | Converted
  | Failed (reason : String)
deriving DecidableEq

/-- Whether an outcome is a failure. -/
def Outcome.isFailed : Outcome → Bool
  | .Failed _ => true
  | _ => false

/-- The target artifact store, keyed by layer (newest entry first); the
conversion manifest is re-derived from this state, never cached. -/
abbrev TargetFS := List (ℕ × TargetSAE)

/-- Aggregate result of a conversion run: the final store state, the
per-layer outcomes in request order, and how many network fetches and disk
writes the run performed. -/
structure ConvertResult where
  fs : TargetFS
  outcomes : List (ℕ × Outcome)
  fetches : ℕ
  writes : ℕ
deriving DecidableEq

/-- Modelled from the spec: convert one layer — skip without fetching or
writing when the target artifact and config already exist and `force` is
off; otherwise fetch the source (an unreachable source fails only this
layer) and write the converted artifact. -/
def convert_layer (source : ℕ → Option SourceSAE) (force : Bool)
    (fs : TargetFS) (layer : ℕ) : ConvertResult :=
  if !force && (fs.lookup layer).isSome then
    ⟨fs, [(layer, .Skipped)], 0, 0⟩
  else
    match source layer with
    | none => ⟨fs, [(layer, .Failed "source artifact unreachable")], 1, 0⟩
    | some src => ⟨(layer, convert_single_sae src) :: fs, [(layer, .Converted)], 1, 1⟩

/-- Modelled from the spec: `convert_saes` — convert every requested layer
in order, accumulating per-layer outcomes and effect counts; one layer's
failure does not abort the rest. -/
def convert_saes (source : ℕ → Option SourceSAE) (force : Bool)
    (fs : TargetFS) : List ℕ → ConvertResult
  | [] => ⟨fs, [], 0, 0⟩
  | layer :: rest =>
    let r := convert_saes source force (convert_layer source force fs layer).fs rest
    ⟨r.fs, (convert_layer source force fs layer).outcomes ++ r.outcomes,
      (convert_layer source force fs layer).fetches + r.fetches,
      (convert_layer source force fs layer).writes + r.writes⟩

lemma convert_layer_skip (source : ℕ → Option SourceSAE) (fs : TargetFS) (layer : ℕ)
    (h : (fs.lookup layer).isSome) :
    convert_layer source false fs layer = ⟨fs, [(layer, .Skipped)], 0, 0⟩ := by
  simp [convert_layer, h]

lemma convert_layer_fs_preserves (source : ℕ → Option SourceSAE) (fs : TargetFS)
    (layer l' : ℕ) (h : (fs.lookup l').isSome) :
    (convert_layer source false fs layer).fs.lookup l' = fs.lookup l' := by
  by_cases hl : (fs.lookup layer).isSome
  · simp [convert_layer, hl]
  · have hne : l' ≠ layer := by
      intro e
      rw [e] at h
      exact hl h
    unfold convert_layer
    cases hsrc : source layer with
    | none => simp [hl, hsrc]
    | some src =>
      simp only [Bool.not_false, Bool.true_and, hl, if_neg, hsrc]
      simp [List.lookup, beq_eq_false_iff_ne.mpr hne, hl]

lemma convert_layer_success_present (source : ℕ → Option SourceSAE) (fs : TargetFS)
    (layer : ℕ)
    (h : ∀ o ∈ (convert_layer source false fs layer).outcomes, o.2.isFailed = false) :
    ((convert_layer source false fs layer).fs.lookup layer).isSome := by
  by_cases hl : (fs.lookup layer).isSome
  · simp only [convert_layer, hl, Bool.not_false, Bool.true_and, if_pos]
  · unfold convert_layer
    cases hsrc : source layer with
    | none =>
      exfalso
      have := h (layer, .Failed "source artifact unreachable") (by simp [convert_layer, hl, hsrc])
      simp [Outcome.isFailed] at this
    | some src =>
      simp [hl, hsrc, List.lookup]

lemma convert_saes_fs_preserves (source : ℕ → Option SourceSAE) (l' : ℕ) :
    ∀ (layers : List ℕ) (fs : TargetFS), (fs.lookup l').isSome →
      (convert_saes source false fs layers).fs.lookup l' = fs.lookup l'
  | [], _, _ => rfl
  | layer :: rest, fs, h => by
    have h1 := convert_layer_fs_preserves source fs layer l' h
    have h2 : ((convert_layer source false fs layer).fs.lookup l').isSome := by
      rw [h1]; exact h
    show (convert_saes source false (convert_layer source false fs layer).fs rest).fs.lookup l' = _
    rw [convert_saes_fs_preserves source l' rest _ h2, h1]

lemma convert_saes_all_present (source : ℕ → Option SourceSAE) :
    ∀ (layers : List ℕ) (fs : TargetFS),
      (∀ o ∈ (convert_saes source false fs layers).outcomes, o.2.isFailed = false) →
      ∀ l ∈ layers, ((convert_saes source false fs layers).fs.lookup l).isSome := by
  intro layers
  induction layers with
  | nil => intro fs _ l hl; cases hl
  | cons layer rest ih =>
    intro fs h l hl
    have hsplit : (convert_saes source false fs (layer :: rest)).outcomes =
        (convert_layer source false fs layer).outcomes ++
          (convert_saes source false (convert_layer source false fs layer).fs rest).outcomes :=
      rfl
    rw [hsplit] at h
    have hhead : ∀ o ∈ (convert_layer source false fs layer).outcomes, o.2.isFailed = false :=
      fun o ho => h o (List.mem_append_left _ ho)
    have hrest : ∀ o ∈ (convert_saes source false
        (convert_layer source false fs layer).fs rest).outcomes, o.2.isFailed = false :=
      fun o ho => h o (List.mem_append_right _ ho)
    rcases List.mem_cons.mp hl with rfl | hl'
    · have hp := convert_layer_success_present source fs l hhead
      show ((convert_saes source false (convert_layer source false fs l).fs rest).fs.lookup l).isSome
      rw [convert_saes_fs_preserves source l rest _ hp]
      exact hp
    · exact ih _ hrest l hl'

lemma convert_saes_all_skipped (source : ℕ → Option SourceSAE) :
    ∀ (layers : List ℕ) (fs : TargetFS), (∀ l ∈ layers, (fs.lookup l).isSome) →
      convert_saes source false fs layers =
        ⟨fs, layers.map (fun l => (l, Outcome.Skipped)), 0, 0⟩ := by
  intro layers
  induction layers with
  | nil => intro fs _; rfl
  | cons layer rest ih =>
    intro fs h
    have hskip := convert_layer_skip source fs layer (h layer (List.mem_cons_self _ _))
    show (⟨_, (convert_layer source false fs layer).outcomes ++ _,
      (convert_layer source false fs layer).fetches + _,
      (convert_layer source false fs layer).writes + _⟩ : ConvertResult) = _
    rw [hskip, ih fs (fun l hl => h l (List.mem_cons_of_mem _ hl))]
    rfl

/-- C6: if the first conversion run over a layer set reports no failure,
then running it again with `force = false` performs zero fetches and zero
writes, marks every layer `Skipped`, and leaves the target artifacts
byte-for-byte identical; moreover a layer whose artifact already exists is
never mutated by a `force = false` run. -/
theorem convert_idempotent (source : ℕ → Option SourceSAE) (layers : List ℕ)
    (fs₀ : TargetFS)
    (h : ∀ o ∈ (convert_saes source false fs₀ layers).outcomes, o.2.isFailed = false) :
    convert_saes source false (convert_saes source false fs₀ layers).fs layers =
      ⟨(convert_saes source false fs₀ layers).fs,
        layers.map (fun l => (l, Outcome.Skipped)), 0, 0⟩ ∧
    ∀ layer : ℕ, (fs₀.lookup layer).isSome →
      (convert_saes source false fs₀ layers).fs.lookup layer = fs₀.lookup layer := by
  constructor
  · exact convert_saes_all_skipped source layers _
      (convert_saes_all_present source layers fs₀ h)
  · intro layer hl
    exact convert_saes_fs_preserves source layer layers fs₀ hl

/-- Witness for C6: one layer, converted from a concrete source, then
re-converted — the second run is a pure no-op that reports `Skipped`. -/
theorem convert_idempotent_witness :
    convert_saes (fun l => if l == 0 then some ⟨[[1, 2], [3, 4]], [[1, 0], [0, 1]], [0], [1], "hp", "lm"⟩ else none) false
        (convert_saes (fun l => if l == 0 then some ⟨[[1, 2], [3, 4]], [[1, 0], [0, 1]], [0], [1], "hp", "lm"⟩ else none) false [] [0]).fs [0] =
      ⟨(convert_saes (fun l => if l == 0 then some ⟨[[1, 2], [3, 4]], [[1, 0], [0, 1]], [0], [1], "hp", "lm"⟩ else none) false [] [0]).fs,
        [(0, Outcome.Skipped)], 0, 0⟩ :=
  (convert_idempotent
    (fun l => if l == 0 then some ⟨[[1, 2], [3, 4]], [[1, 0], [0, 1]], [0], [1], "hp", "lm"⟩ else none)
    [0] [] (by decide)).1

lemma convert_saes_fresh_outcomes (source : ℕ → Option SourceSAE) :
    ∀ (layers : List ℕ) (fs : TargetFS), (∀ l ∈ layers, fs.lookup l = none) →
      layers.Nodup →
      (convert_saes source false fs layers).outcomes =
        layers.map (fun l => (l, if (source l).isSome then Outcome.Converted
          else Outcome.Failed "source artifact unreachable")) := by
  intro layers
  induction layers with
  | nil => intro fs _ _; rfl
  | cons layer rest ih =>
    intro fs h hnd
    have hl : fs.lookup layer = none := h layer (List.mem_cons_self _ _)
    have hnd' := List.nodup_cons.mp hnd
    have hstep : (convert_saes source false fs (layer :: rest)).outcomes =
        (convert_layer source false fs layer).outcomes ++
          (convert_saes source false (convert_layer source false fs layer).fs rest).outcomes :=
      rfl
    rw [hstep]
    cases hsrc : source layer with
    | none =>
      have hcl : convert_layer source false fs layer =
          ⟨fs, [(layer, .Failed "source artifact unreachable")], 1, 0⟩ := by
        simp [convert_layer, hl, hsrc]
      rw [hcl]
      dsimp only
      rw [ih fs (fun l hle => h l (List.mem_cons_of_mem _ hle)) hnd'.2]
      simp [hsrc]
    | some src =>
      have hcl : convert_layer source false fs layer =
          ⟨(layer, convert_single_sae src) :: fs, [(layer, .Converted)], 1, 1⟩ := by
        simp [convert_layer, hl, hsrc]
      rw [hcl]
      dsimp only
      have hfresh' : ∀ l ∈ rest, (((layer, convert_single_sae src) :: fs).lookup l) = none := by
        intro l hle
        have hne : (l == layer) = false := beq_eq_false_iff_ne.mpr (fun e => hnd'.1 (e ▸ hle))
        simp only [List.lookup, hne]
        exact h l (List.mem_cons_of_mem _ hle)
      rw [ih _ hfresh' hnd'.2]
      simp [hsrc]

lemma convert_saes_fresh_present (source : ℕ → Option SourceSAE) :
    ∀ (layers : List ℕ) (fs : TargetFS), (∀ l ∈ layers, fs.lookup l = none) →
      layers.Nodup → ∀ l ∈ layers, (source l).isSome →
      ((convert_saes source false fs layers).fs.lookup l).isSome := by
  intro layers
  induction layers with
  | nil => intro fs _ _ l hl; cases hl
  | cons layer rest ih =>
    intro fs h hnd l hl hsrc'
    have hnd' := List.nodup_cons.mp hnd
    rcases List.mem_cons.mp hl with rfl | hl'
    · have hl0 : fs.lookup l = none := h l (List.mem_cons_self _ _)
      obtain ⟨s, hsrc⟩ := Option.isSome_iff_exists.mp hsrc'
      have hcl : convert_layer source false fs l =
          ⟨(l, convert_single_sae s) :: fs, [(l, .Converted)], 1, 1⟩ := by
        simp [convert_layer, hl0, hsrc]
      have hp : ((convert_layer source false fs l).fs.lookup l).isSome := by
        rw [hcl]; simp [List.lookup]
      show ((convert_saes source false (convert_layer source false fs l).fs rest).fs.lookup l).isSome
      rw [convert_saes_fs_preserves source l rest _ hp]
      exact hp
    · have hfresh' : ∀ x ∈ rest, ((convert_layer source false fs layer).fs.lookup x) = none := by
        intro x hx
        have hxne : x ≠ layer := fun e => hnd'.1 (e ▸ hx)
        have hx0 := h x (List.mem_cons_of_mem _ hx)
        unfold convert_layer
        by_cases hlay : (fs.lookup layer).isSome
        · simp [hlay, hx0]
        · cases hsrc2 : source layer with
          | none => simp [hlay, hsrc2, hx0]
          | some s2 =>
            simp [hlay, hsrc2, List.lookup, beq_eq_false_iff_ne.mpr hxne, hx0]
      exact ih _ hfresh' hnd'.2 l hl' hsrc'

/-- C8: one layer's conversion failure does not abort the others — with a
fresh target store every requested layer gets exactly one outcome,
`Converted` when its source artifact is reachable and `Failed` when it is
not, and a successfully converted layer's artifact is present afterwards,
so a subsequent request targeting it is served (re-conversion `Skipped`). -/
theorem convert_partial_failure_isolated (source : ℕ → Option SourceSAE)
    (layers : List ℕ) (hnd : layers.Nodup) :
    (convert_saes source false [] layers).outcomes =
      layers.map (fun l => (l, if (source l).isSome then Outcome.Converted
        else Outcome.Failed "source artifact unreachable")) ∧
    ∀ l ∈ layers, (source l).isSome →
      ((convert_saes source false [] layers).fs.lookup l).isSome ∧
      (convert_saes source false (convert_saes source false [] layers).fs [l]).outcomes =
        [(l, Outcome.Skipped)] := by
  constructor
  · exact convert_saes_fresh_outcomes source layers [] (fun l _ => rfl) hnd
  · intro l hl hsrc
    have hp := convert_saes_fresh_present source layers [] (fun l _ => rfl) hnd l hl hsrc
    refine ⟨hp, ?_⟩
    rw [convert_saes_all_skipped source [l] _ (fun x hx => by
      rcases List.mem_singleton.mp hx with rfl
      exact hp)]
    rfl

/-- Witness for C8: layers 0–4 have reachable sources, layer 5 does not —
the aggregate outcome is `Converted` for 0–4 and `Failed` for 5, and a
subsequent request for layer 2 is served (`Skipped`). -/
theorem convert_partial_failure_isolated_witness :
    (convert_saes (fun l => if l < 5 then some ⟨[[1]], [[1]], [0], [0], "hp", "lm"⟩ else none) false [] [0, 1, 2, 3, 4, 5]).outcomes =
      [(0, Outcome.Converted), (1, Outcome.Converted), (2, Outcome.Converted),
       (3, Outcome.Converted), (4, Outcome.Converted),
       (5, Outcome.Failed "source artifact unreachable")] ∧
    (convert_saes (fun l => if l < 5 then some ⟨[[1]], [[1]], [0], [0], "hp", "lm"⟩ else none) false
        (convert_saes (fun l => if l < 5 then some ⟨[[1]], [[1]], [0], [0], "hp", "lm"⟩ else none) false [] [0, 1, 2, 3, 4, 5]).fs [2]).outcomes =
      [(2, Outcome.Skipped)] := by
  have h := convert_partial_failure_isolated
    (fun l => if l < 5 then some ⟨[[1]], [[1]], [0], [0], "hp", "lm"⟩ else none)
    [0, 1, 2, 3, 4, 5] (by decide)
  exact ⟨h.1.trans (by decide), (h.2 2 (by decide) (by decide)).2⟩

/-! ### Analysis Job Registry -/

/-- Job status, serialized by the API as `pending|analyzing|completed|failed`
(`src/frontend/lib/api.ts`). -/
inductive JobStatus where
  | Pending
  | Analyzing
  | Completed
  | Failed
deriving DecidableEq

/-- Modelled from the spec: the transitions the Job Registry commits —
`Pending → Analyzing → Completed | Failed`; anything else is rejected. -/
def allowed_transition : JobStatus → JobStatus → Bool
  | .Pending, .Analyzing => true
  | .Analyzing, .Completed => true
  | .Analyzing, .Failed => true
  | _, _ => false

/-- Modelled from the spec: one Registry status update, an atomic
single-field transition that commits only allowed transitions. -/
def registry_step (s : JobStatus) (req : JobStatus) : JobStatus :=
  if allowed_transition s req then req else s

/-- A job's status after the Registry processes a sequence of requested
transitions. -/
def registry_run (s : JobStatus) (reqs : List JobStatus) : JobStatus :=
  reqs.foldl registry_step s

/-- Progress rank of a status; the terminal states rank highest. -/
def statusRank : JobStatus → ℕ
  | .Pending => 0
  | .Analyzing => 1
  | .Completed => 2
  | .Failed => 2

/-- C9: job status is monotonic — a job that reached `Completed` or `Failed`
stays there under every sequence of Registry operations, and no single
operation lowers the status rank, so no backward transition ever occurs. -/
theorem job_status_monotonic (reqs : List JobStatus) (s : JobStatus) :
    registry_run .Completed reqs = .Completed ∧
    registry_run .Failed reqs = .Failed ∧
    (∀ (s' req : JobStatus), statusRank s' ≤ statusRank (registry_step s' req)) ∧
    statusRank s ≤ statusRank (registry_run s reqs) := by
  have hstep : ∀ (s' req : JobStatus), statusRank s' ≤ statusRank (registry_step s' req) := by
    intro s' req
    cases s' <;> cases req <;> simp [registry_step, allowed_transition, statusRank]
  have hfix : ∀ (t : JobStatus), (∀ r, registry_step t r = t) →
      ∀ rs : List JobStatus, registry_run t rs = t := by
    intro t ht rs
    induction rs with
    | nil => rfl
    | cons r rest ih =>
      show registry_run (registry_step t r) rest = t
      rw [ht r]
      exact ih
  have hrun : ∀ (rs : List JobStatus) (s' : JobStatus),
      statusRank s' ≤ statusRank (registry_run s' rs) := by
    intro rs
    induction rs with
    | nil => intro s'; exact le_refl _
    | cons r rest ih =>
      intro s'
      exact le_trans (hstep s' r) (ih (registry_step s' r))
  exact ⟨hfix .Completed (fun r => by cases r <;> rfl) reqs,
    hfix .Failed (fun r => by cases r <;> rfl) reqs, hstep, hrun reqs s⟩

/-! ### Frontend API client (`src/frontend/lib/api.ts`) -/

/-- The fetch outcome a client call observes: the HTTP ok flag, status code
and status text, and the error body's JSON parse outcome — `none` when the
body does not parse as JSON, `some d` when it parses with `d` the optional
string `detail` field. -/
structure FetchResponse where
  ok : Bool
  status : ℕ
  statusText : String
  errorDetail : Option (Option String)
deriving DecidableEq

/-- The message thrown for a non-ok response: the code evaluates
`error.detail || "HTTP error! status: <status>"`, where `error` is the
parsed body or `{detail: "Unknown error"}` when parsing failed; a missing
or empty detail is falsy. -/
def error_message (r : FetchResponse) : String :=
  match r.errorDetail with
  | none => "Unknown error"
  | some d =>
    if d.getD "" = "" then "HTTP error! status: " ++ toString r.status
    else d.getD ""

/-- The response handling every client function shares: return the parsed
body when ok, otherwise throw (`Except.error`) the error message. -/
def handle_response {α : Type} (r : FetchResponse) (parsed : α) : Except String α :=
  if r.ok then .ok parsed else .error (error_message r)

/-- `AnalyzeModelResponse` of the client. -/
structure AnalyzeModelResponse where
  id : String
  model_url : String
  model_id : Option String
  status : JobStatus
  checked_at : String
  analysis_result : Option String
  error_message : Option String
deriving DecidableEq

/-- The body `listModels` resolves to. -/
structure ModelsList where
  models : List AnalyzeModelResponse
  total : ℕ
deriving DecidableEq

/-- `GenerateRequest` of the client. -/
structure GenerateRequest where
  prompt : String
  model_id : Option String
  max_new_tokens : Option ℕ
  temperature : Option ℚ
  top_p : Option ℚ
  top_k : Option ℕ
  do_sample : Option Bool
  layer : Option ℕ
deriving DecidableEq

/-- `generation_metadata` of `GenerateResponse`. -/
structure GenerationMetadata where
  layer : Option ℕ
  max_activation : Option ℚ
  total_features_checked : Option ℕ
deriving DecidableEq

/-- `GenerateResponse` of the client. -/
structure GenerateResponse where
  generated_text : String
  prompt : String
  has_quarantined_features : Bool
  activated_features : List FeatureActivation
  generation_metadata : GenerationMetadata
  warnings : Option (List String)
deriving DecidableEq

/-- `analyzeModel(modelUrl)`: POST `/models/analyze`; the fetch outcome and
the parsed body are inputs of the model. -/
def analyzeModel (modelUrl : String) (r : FetchResponse)
    (parsed : AnalyzeModelResponse) : Except String AnalyzeModelResponse :=
  handle_response r parsed

/-- `listModels(limit?)`: GET `/models`. -/
def listModels (limit : Option ℕ) (r : FetchResponse)
    (parsed : ModelsList) : Except String ModelsList :=
  handle_response r parsed

/-- `getModel(modelId)`: GET `/models/{id}`. -/
def getModel (modelId : String) (r : FetchResponse)
    (parsed : AnalyzeModelResponse) : Except String AnalyzeModelResponse :=
  handle_response r parsed

/-- `generateText(request)`: POST `/generate`. -/
def generateText (req : GenerateRequest) (r : FetchResponse)
    (parsed : GenerateResponse) : Except String GenerateResponse :=
  handle_response r parsed

/-- C10 counterexample: a non-ok response whose body parses as JSON with an
empty `detail` field — the thrown message is the fixed text embedding the
numeric status code, which is neither the server's detail, nor
"Unknown error", nor the HTTP status text. -/
theorem api_client_message_counterexample :
    getModel "m1" ⟨false, 500, "Internal Server Error", some (some "")⟩
        ⟨"m1", "u", none, .Pending, "", none, none⟩ =
      Except.error "HTTP error! status: 500" ∧
    "HTTP error! status: 500" ≠ "" ∧
    "HTTP error! status: 500" ≠ "Unknown error" ∧
    "HTTP error! status: 500" ≠ "Internal Server Error" :=
  ⟨rfl, by decide, by decide, by decide⟩

/-- C10 (amended): each client function returns the parsed JSON body exactly
when the response is ok and otherwise always throws (a non-ok response never
returns normally); the thrown message is the server's `detail` when the
error body parses as JSON with a non-empty detail, "Unknown error" when the
body does not parse as JSON, and the fixed text embedding the numeric HTTP
status code when the parsed body lacks a non-empty detail. -/
theorem api_client_response_handling (r : FetchResponse) (u mid : String)
    (lim : Option ℕ) (ba bg : AnalyzeModelResponse) (bl : ModelsList)
    (req : GenerateRequest) (bgen : GenerateResponse) :
    (r.ok = true →
      analyzeModel u r ba = .ok ba ∧ listModels lim r bl = .ok bl ∧
      getModel mid r bg = .ok bg ∧ generateText req r bgen = .ok bgen) ∧
    (r.ok = false →
      analyzeModel u r ba = .error (error_message r) ∧
      listModels lim r bl = .error (error_message r) ∧
      getModel mid r bg = .error (error_message r) ∧
      generateText req r bgen = .error (error_message r) ∧
      (∀ x, analyzeModel u r ba ≠ .ok x) ∧ (∀ x, listModels lim r bl ≠ .ok x) ∧
      (∀ x, getModel mid r bg ≠ .ok x) ∧ (∀ x, generateText req r bgen ≠ .ok x)) ∧
    (r.errorDetail = none → error_message r = "Unknown error") ∧
    (∀ d, r.errorDetail = some (some d) → d ≠ "" → error_message r = d) ∧
    ((r.errorDetail = some none ∨ r.errorDetail = some (some "")) →
      error_message r = "HTTP error! status: " ++ toString r.status) := by
  refine ⟨?_, ?_, ?_, ?_, ?_⟩
  · intro hok
    simp [analyzeModel, listModels, getModel, generateText, handle_response, hok]
  · intro hok
    simp [analyzeModel, listModels, getModel, generateText, handle_response, hok]
  · intro h
    simp [error_message, h]
  · intro d hd hne
    simp [error_message, hd, hne]
  · intro h
    rcases h with h | h <;> simp [error_message, h]

end Modx
